import Mathlib

/-
Shallow embedding of the ChaBot backend (src/backend/app.py).

Strings are modelled as `List Char`.  Each `re.sub` call of
`format_text_response` is embedded as a dedicated scanning function that
reproduces the left-to-right, non-overlapping substitution semantics of
Python's `re.sub` for that particular pattern: at every position the
pattern is tried; on success the replacement is emitted and scanning
resumes after the consumed match, on failure the character is copied and
scanning advances by one.  Character classes are modelled on their ASCII
fragment (the class \s as the six ASCII whitespace characters, the class
\d as '0'-'9', the class [A-Z] as ASCII uppercase).  The scanning
functions take an explicit fuel argument initialised to the length of the
input; every step consumes at least one character of the input, so the
fuel never runs out.
-/

def isPySpace (c : Char) : Bool :=
  c == ' ' || c == '\t' || c == '\n' || c == '\r' || c == '\x0b' || c == '\x0c'

def isDigitC (c : Char) : Bool :=
  c.isDigit

def isUpperC (c : Char) : Bool :=
  c.isUpper

def isNL (c : Char) : Bool :=
  c == '\n'

def toL (s : String) : List Char :=
  s.toList

/-- Matches a literal pattern at the front of a list, returning the
remainder after the pattern on success. -/
def matchLit : List Char → List Char → Option (List Char)
  | [], rest => some rest
  | _ :: _, [] => none
  | p :: ps, c :: cs => if p = c then matchLit ps cs else none

/-- Substring test: the pattern occurs (contiguously) somewhere in the list. -/
def hasSub (pat : List Char) : List Char → Bool
  | [] => (matchLit pat []).isSome
  | c :: cs => (matchLit pat (c :: cs)).isSome || hasSub pat cs

/-- Search for the closing bold marker of the lazy pattern matching
two asterisks, then a shortest run of non-newline characters, then two
asterisks: returns the enclosed span and the remainder after the closing
marker.  A newline reached before a closing marker aborts the search,
mirroring that the dot of Python regexes does not match a newline. -/
def findBoldClose : List Char → Option (List Char × List Char)
  | '*' :: '*' :: rest => some ([], rest)
  | '\n' :: _ => none
  | c :: rest => (findBoldClose rest).map fun pr => (c :: pr.1, pr.2)
  | [] => none

/-- Rule 1 scanner (fuelled): re.sub of double-asterisk pairs with their
enclosed text. -/
def stripBoldF : Nat → List Char → List Char
  | 0, l => l
  | _ + 1, [] => []
  | n + 1, '*' :: '*' :: rest =>
    match findBoldClose rest with
    | some (inner, after) => inner ++ stripBoldF n after
    | none => '*' :: '*' :: stripBoldF n rest
  | n + 1, c :: cs => c :: stripBoldF n cs

/-- Rule 1: strip paired double-asterisk emphasis markers. -/
def stripBold (l : List Char) : List Char :=
  stripBoldF l.length l

/-- Matches a numbered-list marker (one or more digits, a dot and one
whitespace character) at the front of the list.  Returns the digit run,
the whitespace character and the remainder. -/
def matchNum (l : List Char) : Option (List Char × Char × List Char) :=
  match l.takeWhile isDigitC, l.dropWhile isDigitC with
  | d :: ds, '.' :: w :: rest =>
    if isPySpace w then some (d :: ds, w, rest) else none
  | _, _ => none

/-- Rule 2 scanner: two newlines inserted before every numbered-list
marker that is followed by a double-asterisk marker. -/
def sub2F : Nat → List Char → List Char
  | 0, l => l
  | _ + 1, [] => []
  | n + 1, c :: cs =>
    match matchNum (c :: cs) with
    | some (ds, w, '*' :: '*' :: rest) =>
      '\n' :: '\n' :: (ds ++ '.' :: w :: '*' :: '*' :: sub2F n rest)
    | _ => c :: sub2F n cs

def sub2 (l : List Char) : List Char :=
  sub2F l.length l

/-- Rule 3 scanner: two newlines inserted before every numbered-list
marker. -/
def sub3F : Nat → List Char → List Char
  | 0, l => l
  | _ + 1, [] => []
  | n + 1, c :: cs =>
    match matchNum (c :: cs) with
    | some (ds, w, rest) => '\n' :: '\n' :: (ds ++ '.' :: w :: sub3F n rest)
    | none => c :: sub3F n cs

def sub3 (l : List Char) : List Char :=
  sub3F l.length l

/-- Matches one or more whitespace characters, a dash and one whitespace
character at the front of the list, returning the remainder. -/
def matchDash (l : List Char) : Option (List Char) :=
  match l.takeWhile isPySpace, l.dropWhile isPySpace with
  | _ :: _, '-' :: d :: rest => if isPySpace d then some rest else none
  | _, _ => none

/-- Rule 4 scanner: whitespace-run dash bullets rewritten to a newline,
three spaces, dash, space. -/
def sub4F : Nat → List Char → List Char
  | 0, l => l
  | _ + 1, [] => []
  | n + 1, c :: cs =>
    match matchDash (c :: cs) with
    | some rest => '\n' :: ' ' :: ' ' :: ' ' :: '-' :: ' ' :: sub4F n rest
    | none => c :: sub4F n cs

def sub4 (l : List Char) : List Char :=
  sub4F l.length l

/-- Rule 5: single-whitespace dash bullets rewritten to a newline, dash,
space.  Structural scanner. -/
def sub5 : List Char → List Char
  | a :: '-' :: b :: rest =>
    if isPySpace a && isPySpace b then '\n' :: '-' :: ' ' :: sub5 rest
    else a :: sub5 ('-' :: b :: rest)
  | c :: cs => c :: sub5 cs
  | [] => []

/-- Rule 6: a newline inserted before every dash bullet starting a
For-phrase; the trailing whitespace of the match is replaced by a plain
space. -/
def sub6 : List Char → List Char
  | '-' :: ' ' :: 'F' :: 'o' :: 'r' :: w :: rest =>
    if isPySpace w then '\n' :: '-' :: ' ' :: 'F' :: 'o' :: 'r' :: ' ' :: sub6 rest
    else '-' :: sub6 (' ' :: 'F' :: 'o' :: 'r' :: w :: rest)
  | c :: cs => c :: sub6 cs
  | [] => []

/-- Rule 7: a newline inserted before every dash bullet starting an
In-phrase; the trailing whitespace of the match is replaced by a plain
space. -/
def sub7 : List Char → List Char
  | '-' :: ' ' :: 'I' :: 'n' :: w :: rest =>
    if isPySpace w then '\n' :: '-' :: ' ' :: 'I' :: 'n' :: ' ' :: sub7 rest
    else '-' :: sub7 (' ' :: 'I' :: 'n' :: w :: rest)
  | c :: cs => c :: sub7 cs
  | [] => []

/-- The six section-header phrases of rule 8, in the order of the
alternation in the source regex. -/
def phrases : List (List Char) :=
  [toL "Overview of", toL "Feasibility and", toL "Benefits for",
   toL "Challenges and", toL "Regulatory", toL "Market Insights"]

/-- Tries the phrases in order at the front of the list. -/
def tryPhrases : List (List Char) → List Char → Option (List Char × List Char)
  | [], _ => none
  | p :: ps, l =>
    match matchLit p l with
    | some rest => some (p, rest)
    | none => tryPhrases ps l

/-- Rule 8 scanner: a newline inserted before every section-header
phrase. -/
def sub8F : Nat → List Char → List Char
  | 0, l => l
  | _ + 1, [] => []
  | n + 1, c :: cs =>
    match tryPhrases phrases (c :: cs) with
    | some (p, rest) => '\n' :: (p ++ sub8F n rest)
    | none => c :: sub8F n cs

def sub8 (l : List Char) : List Char :=
  sub8F l.length l

/-- Rule 9 scanner: a newline inserted between a colon and a following
dash (possibly separated by whitespace, which is kept). -/
def sub9F : Nat → List Char → List Char
  | 0, l => l
  | _ + 1, [] => []
  | n + 1, c :: cs =>
    if c = ':' then
      match cs.dropWhile isPySpace with
      | '-' :: rest => ':' :: '\n' :: (cs.takeWhile isPySpace ++ '-' :: sub9F n rest)
      | _ => ':' :: sub9F n cs
    else c :: sub9F n cs

def sub9 (l : List Char) : List Char :=
  sub9F l.length l

/-- Rule 10 scanner: every run of three or more newlines collapsed to
exactly two. -/
def collapse3F : Nat → List Char → List Char
  | 0, _ => []
  | _ + 1, [] => []
  | n + 1, c :: cs =>
    if c = '\n' then
      (if 2 ≤ (cs.takeWhile isNL).length then ['\n', '\n'] else '\n' :: cs.takeWhile isNL)
        ++ collapse3F n (cs.dropWhile isNL)
    else c :: collapse3F n cs

def collapse3 (l : List Char) : List Char :=
  collapse3F l.length l

/-- Rule 11: Python str.strip, removing leading and trailing whitespace. -/
def pyStrip (l : List Char) : List Char :=
  ((l.dropWhile isPySpace).reverse.dropWhile isPySpace).reverse

/-- Rule 12 scanner: a newline inserted between a numbered-list marker
and an immediately following uppercase letter. -/
def sub12F : Nat → List Char → List Char
  | 0, l => l
  | _ + 1, [] => []
  | n + 1, c :: cs =>
    match matchNum (c :: cs) with
    | some (ds, w, u :: rest) =>
      if isUpperC u then ds ++ '.' :: w :: '\n' :: u :: sub12F n rest
      else c :: sub12F n cs
    | _ => c :: sub12F n cs

def sub12 (l : List Char) : List Char :=
  sub12F l.length l

/-- The formatter format_text_response of src/backend/app.py: the twelve
substitution rules applied in source order. -/
def format_text_response (l : List Char) : List Char :=
  sub12 (pyStrip (collapse3 (sub9 (sub8 (sub7 (sub6 (sub5 (sub4 (sub3 (sub2 (stripBold l)))))))))))

/-- The formatter on Lean strings. -/
def formatString (s : String) : String :=
  ⟨format_text_response s.toList⟩

/-
HTTP side of src/backend/app.py, embedded at the request-handler level.
The body of a response is either plain text (the success path of /chat)
or a JSON error object carrying the message string passed to jsonify.
-/

/-- Body of an HTTP response produced by the bridge: plain text on the
success path, a JSON object with an error message otherwise. -/
inductive RespBody where
  | plain (s : List Char) : RespBody
  | errorJson (msg : List Char) : RespBody
deriving DecidableEq, Repr

/-- An HTTP response of the bridge: body and status code. -/
structure ChatResponse where
  body : RespBody
  status : Nat
deriving DecidableEq, Repr

/-- Decimal rendering of a Nat, as used by Python f-strings for the
upstream status code. -/
def natToL (n : Nat) : List Char :=
  (Nat.repr n).toList

/-- The three possible shapes of the upstream response body as the /chat
handler distinguishes them: JSON with a text field, JSON without one
(kept as its stringified form), or a non-JSON raw body. -/
inductive UpBody where
  | withText (t : List Char) : UpBody
  | jsonOther (s : List Char) : UpBody
  | rawText (s : List Char) : UpBody
deriving DecidableEq, Repr

/-- An upstream HTTP response: status code and body. -/
structure UpResp where
  status : Nat
  body : UpBody
deriving DecidableEq, Repr

/-- Lines 121-148 of src/backend/app.py: how the /chat handler turns the
upstream response into its own response.  The success branch is guarded
by response.status_code == 200. -/
def handleUpstream (r : UpResp) : ChatResponse :=
  if r.status = 200 then
    match r.body with
    | .withText t => ⟨.plain (format_text_response t), 200⟩
    | .jsonOther s => ⟨.plain s, 200⟩
    | .rawText s => ⟨.plain s, 200⟩
  else
    ⟨.errorJson (toL "External API error: " ++ natToL r.status), r.status⟩

/-- Outcome of request.get_json() on the inbound /chat body: a JSON
object (modelled as an association list of fields), JSON null (get_json
returns None), or a parse failure (get_json raises, carrying the
exception text). -/
inductive ParseOutcome (α : Type) where
  | ok (kvs : List (List Char × α)) : ParseOutcome α
  | okNull : ParseOutcome α
  | failed (detail : List Char) : ParseOutcome α

/-- What the /chat handler does next after reading the body: answer
immediately, or perform the outbound POST to the external endpoint with
the given payload and environment tag. -/
inductive ChatAction (α : Type) where
  | respond (resp : ChatResponse) : ChatAction α
  | callUpstream (payload : α) (env : List Char) : ChatAction α

/-- Key lookup in the parsed JSON object. -/
def lookupKey {α : Type} (k : List Char) : List (List Char × α) → Option α
  | [] => none
  | (k', v) :: rest => if k' = k then some v else lookupKey k rest

/-- Lines 89-98 and 157-159 of src/backend/app.py: the /chat handler up
to the outbound call.  A body that fails to parse raises inside the try
block and is answered by the blanket except branch with status 500; a
falsy body (None or the empty object) or an object without the message
key is answered with status 400; otherwise the message value is
forwarded to the external endpoint. -/
def chatEntry {α : Type} (p : ParseOutcome α) (env : List Char) : ChatAction α :=
  match p with
  | .failed d => .respond ⟨.errorJson (toL "Internal server error: " ++ d), 500⟩
  | .okNull => .respond ⟨.errorJson (toL "No message provided"), 400⟩
  | .ok [] => .respond ⟨.errorJson (toL "No message provided"), 400⟩
  | .ok (kv :: kvs) =>
    match lookupKey (toL "message") (kv :: kvs) with
    | none => .respond ⟨.errorJson (toL "No message provided"), 400⟩
    | some v => .callUpstream v env

/-- Process configuration as read at startup: environment tag (with its
default already applied) and the two optional secrets. -/
structure Config where
  environment : List Char
  apiKey : Option (List Char)
  channelToken : Option (List Char)

/-- Python truthiness of an optional string: None and the empty string
are falsy. -/
def truthy : Option (List Char) → Bool
  | none => false
  | some s => !s.isEmpty

/-- The f-string interpolation of CHANNEL_TOKEN into the external URL;
None renders as the text None. -/
def tokenStr : Option (List Char) → List Char
  | none => toL "None"
  | some s => s

/-- The EXTERNAL_API_URL of src/backend/app.py. -/
def externalUrl (c : Config) : List Char :=
  toL "https://payload.vextapp.com/hook/AKEIS1C8PZ/catch/" ++ tokenStr c.channelToken

/-- The /config response: in production only the environment and a
configured/missing summary; otherwise the configuration flags and the
external URL. -/
inductive ConfigResp where
  | production (environment status : List Char) : ConfigResp
  | debug (environment : List Char) (apiKeyConfigured channelConfigured : Bool)
      (url : List Char) : ConfigResp
deriving DecidableEq, Repr

/-- Lines 161-177 of src/backend/app.py: the get_config handler. -/
def get_config (c : Config) : ConfigResp :=
  if c.environment = toL "production" then
    .production c.environment
      (if truthy c.apiKey && truthy c.channelToken
        then toL "API keys configured" else toL "API keys missing")
  else
    .debug c.environment (truthy c.apiKey) (truthy c.channelToken) (externalUrl c)

/-- No three consecutive newline characters occur in the list. -/
def noTriple : List Char → Bool
  | a :: b :: c :: rest =>
    if a = '\n' ∧ b = '\n' ∧ c = '\n' then false else noTriple (b :: c :: rest)
  | _ => true


theorem hasSub_tail {pat : List Char} {c : Char} {cs : List Char}
    (h : hasSub pat (c :: cs) = false) : hasSub pat cs = false := by
  simp [hasSub] at h
  exact h.2

theorem matchLit_not_at_head {pat : List Char} {l : List Char}
    (h : hasSub pat l = false) : matchLit pat l = none := by
  cases l with
  | nil =>
    simp [hasSub] at h
    exact Option.not_isSome_iff_eq_none.mp (by simp [h])
  | cons c cs =>
    simp [hasSub] at h
    exact Option.not_isSome_iff_eq_none.mp (by simp [h.1])

theorem stripBoldF_id (n : Nat) (l : List Char)
    (h : hasSub (toL "**") l = false) : stripBoldF n l = l := by
  induction n, l using stripBoldF.induct with
  | case1 l => rfl
  | case2 n => rfl
  | case3 n rest inner after hfind =>
    exact absurd (matchLit_not_at_head h) (by simp [matchLit, toL])
  | case4 n rest hfind =>
    exact absurd (matchLit_not_at_head h) (by simp [matchLit, toL])
  | case5 n c cs h1 ih =>
    rw [stripBoldF.eq_4 n c cs h1]
    exact congrArg (c :: ·) (ih (hasSub_tail h))

theorem matchNum_none {c : Char} (cs : List Char)
    (h : isDigitC c = false) : matchNum (c :: cs) = none := by
  simp [matchNum, List.takeWhile_cons, h]

theorem sub2F_id (n : Nat) (l : List Char)
    (h : ∀ c ∈ l, isDigitC c = false) : sub2F n l = l := by
  induction n, l using sub2F.induct with
  | case1 l => rfl
  | case2 n => rfl
  | case3 n c cs ds w rest hm =>
    have : isDigitC c = false := h c (by simp)
    rw [matchNum_none cs this] at hm
    exact absurd hm (by simp)
  | case4 n c cs hm ih =>
    have htail : ∀ x ∈ cs, isDigitC x = false := fun x hx => h x (by simp [hx])
    simp only [sub2F]
    exact congrArg (c :: ·) (ih htail)

theorem sub3F_id (n : Nat) (l : List Char)
    (h : ∀ c ∈ l, isDigitC c = false) : sub3F n l = l := by
  induction n, l using sub3F.induct with
  | case1 l => rfl
  | case2 n => rfl
  | case3 n c cs ds w rest hm =>
    rw [matchNum_none cs (h c (by simp))] at hm
    exact absurd hm (by simp)
  | case4 n c cs hm ih =>
    simp only [sub3F]
    rw [matchNum_none cs (h c (by simp))]
    exact congrArg (c :: ·) (ih (fun x hx => h x (by simp [hx])))

theorem sub12F_id (n : Nat) (l : List Char)
    (h : ∀ c ∈ l, isDigitC c = false) : sub12F n l = l := by
  induction n, l using sub12F.induct with
  | case1 l => rfl
  | case2 n => rfl
  | case3 n c cs ds w u rest hm hu =>
    rw [matchNum_none cs (h c (by simp))] at hm
    exact absurd hm (by simp)
  | case4 n c cs ds w u rest hm hu ih =>
    simp only [sub12F]
    rw [matchNum_none cs (h c (by simp))]
    exact congrArg (c :: ·) (ih (fun x hx => h x (by simp [hx])))
  | case5 n c cs hm ih =>
    simp only [sub12F]
    exact congrArg (c :: ·) (ih (fun x hx => h x (by simp [hx])))

theorem matchDash_none (l : List Char) (h : '-' ∉ l) : matchDash l = none := by
  unfold matchDash
  split
  · next heq1 heq2 =>
    exfalso
    have hmem : '-' ∈ l.dropWhile isPySpace := by rw [heq2]; simp
    exact h ((List.dropWhile_sublist isPySpace).mem hmem)
  · rfl

theorem sub4F_id (n : Nat) (l : List Char) (h : '-' ∉ l) : sub4F n l = l := by
  induction n, l using sub4F.induct with
  | case1 l => rfl
  | case2 n => rfl
  | case3 n c cs rest hm =>
    rw [matchDash_none (c :: cs) h] at hm
    exact absurd hm (by simp)
  | case4 n c cs hm ih =>
    simp only [sub4F]
    rw [matchDash_none (c :: cs) h]
    exact congrArg (c :: ·) (ih fun hx => h (by simp [hx]))

theorem sub5_id (l : List Char) (h : '-' ∉ l) : sub5 l = l := by
  induction l using sub5.induct with
  | case1 a b rest hsp =>
    exact absurd (by simp : '-' ∈ a :: '-' :: b :: rest) h
  | case2 a b rest hsp ih =>
    exact absurd (by simp : '-' ∈ a :: '-' :: b :: rest) h
  | case3 c cs hnot ih =>
    rw [sub5.eq_2 c cs hnot]
    exact congrArg (c :: ·) (ih fun hx => h (by simp [hx]))
  | case4 => rfl

theorem sub6_id (l : List Char) (h : '-' ∉ l) : sub6 l = l := by
  induction l using sub6.induct with
  | case1 w rest hsp =>
    exact absurd (by simp : '-' ∈ ('-' :: ' ' :: 'F' :: 'o' :: 'r' :: w :: rest)) h
  | case2 w rest hsp ih =>
    exact absurd (by simp : '-' ∈ ('-' :: ' ' :: 'F' :: 'o' :: 'r' :: w :: rest)) h
  | case3 c cs hnot ih =>
    rw [sub6.eq_2 c cs hnot]
    exact congrArg (c :: ·) (ih fun hx => h (by simp [hx]))
  | case4 => rfl

theorem sub7_id (l : List Char) (h : '-' ∉ l) : sub7 l = l := by
  induction l using sub7.induct with
  | case1 w rest hsp =>
    exact absurd (by simp : '-' ∈ ('-' :: ' ' :: 'I' :: 'n' :: w :: rest)) h
  | case2 w rest hsp ih =>
    exact absurd (by simp : '-' ∈ ('-' :: ' ' :: 'I' :: 'n' :: w :: rest)) h
  | case3 c cs hnot ih =>
    rw [sub7.eq_2 c cs hnot]
    exact congrArg (c :: ·) (ih fun hx => h (by simp [hx]))
  | case4 => rfl

theorem tryPhrases_sound {ps : List (List Char)} {l p rest : List Char}
    (h : tryPhrases ps l = some (p, rest)) : p ∈ ps ∧ matchLit p l = some rest := by
  induction ps with
  | nil => simp [tryPhrases] at h
  | cons q qs ih =>
    unfold tryPhrases at h
    cases hq : matchLit q l with
    | some r =>
      rw [hq] at h
      simp at h
      exact ⟨by simp [h.1], by rw [← h.1, hq, h.2]⟩
    | none =>
      rw [hq] at h
      have := ih h
      exact ⟨by simp [this.1], this.2⟩

theorem hasSub_of_matchLit {pat l rest : List Char}
    (h : matchLit pat l = some rest) : hasSub pat l = true := by
  cases l with
  | nil => simp [hasSub, h]
  | cons c cs => simp [hasSub, h]

theorem sub8F_id (n : Nat) (l : List Char)
    (h1 : hasSub (toL "Overview of") l = false)
    (h2 : hasSub (toL "Feasibility and") l = false)
    (h3 : hasSub (toL "Benefits for") l = false)
    (h4 : hasSub (toL "Challenges and") l = false)
    (h5 : hasSub (toL "Regulatory") l = false)
    (h6 : hasSub (toL "Market Insights") l = false) : sub8F n l = l := by
  induction n, l using sub8F.induct with
  | case1 l => rfl
  | case2 n => rfl
  | case3 n c cs p rest hm =>
    exfalso
    obtain ⟨hp, hml⟩ := tryPhrases_sound hm
    have hs := hasSub_of_matchLit hml
    simp [phrases] at hp
    rcases hp with h | h | h | h | h | h <;> rw [h] at hs
    · rw [h1] at hs; exact Bool.false_ne_true hs
    · rw [h2] at hs; exact Bool.false_ne_true hs
    · rw [h3] at hs; exact Bool.false_ne_true hs
    · rw [h4] at hs; exact Bool.false_ne_true hs
    · rw [h5] at hs; exact Bool.false_ne_true hs
    · rw [h6] at hs; exact Bool.false_ne_true hs
  | case4 n c cs hm ih =>
    simp only [sub8F]
    rw [hm]
    exact congrArg (c :: ·)
      (ih (hasSub_tail h1) (hasSub_tail h2) (hasSub_tail h3)
        (hasSub_tail h4) (hasSub_tail h5) (hasSub_tail h6))

theorem sub9F_id (n : Nat) (l : List Char) (h : '-' ∉ l) : sub9F n l = l := by
  induction n, l using sub9F.induct with
  | case1 l => rfl
  | case2 n => rfl
  | case3 n cs rest hdw ih =>
    exfalso
    have hmem : '-' ∈ cs.dropWhile isPySpace := by rw [hdw]; simp
    exact h (by simp [(List.dropWhile_sublist isPySpace).mem hmem])
  | case4 n cs hnone ih =>
    simp only [sub9F, ite_self]
    exact congrArg (':' :: ·) (ih fun hx => h (by simp [hx]))
  | case5 n c cs hc ih =>
    simp only [sub9F, if_neg hc]
    exact congrArg (c :: ·) (ih fun hx => h (by simp [hx]))

theorem mem_collapse3F {x : Char} : ∀ (n : Nat) (l : List Char),
    x ∈ collapse3F n l → x = '\n' ∨ x ∈ l := by
  intro n
  induction n with
  | zero => intro l hx; simp [collapse3F] at hx
  | succ n ih =>
    intro l hx
    cases l with
    | nil => simp [collapse3F] at hx
    | cons c cs =>
      by_cases hc : c = '\n'
      · rw [collapse3F, if_pos hc] at hx
        rcases List.mem_append.mp hx with hb | hr
        · by_cases h2 : 2 ≤ (cs.takeWhile isNL).length
          · rw [if_pos h2] at hb
            simp at hb
            exact Or.inl hb
          · rw [if_neg h2] at hb
            rcases List.mem_cons.mp hb with he | ht
            · exact Or.inl he
            · have := List.mem_takeWhile_imp ht
              simp [isNL] at this
              exact Or.inl this
        · rcases ih _ hr with he | ht
          · exact Or.inl he
          · exact Or.inr (by simp [(List.dropWhile_sublist isNL).mem ht])
      · rw [collapse3F, if_neg hc] at hx
        rcases List.mem_cons.mp hx with he | ht
        · exact Or.inr (by simp [he])
        · rcases ih _ ht with he | hm
          · exact Or.inl he
          · exact Or.inr (by simp [hm])

theorem mem_pyStrip {x : Char} {l : List Char} (h : x ∈ pyStrip l) : x ∈ l := by
  unfold pyStrip at h
  have h1 := List.mem_reverse.mp h
  have h2 := (List.dropWhile_sublist isPySpace).mem h1
  have h3 := List.mem_reverse.mp h2
  exact (List.dropWhile_sublist isPySpace).mem h3

theorem noTriple_tail {a : Char} {l : List Char}
    (h : noTriple (a :: l) = true) : noTriple l = true := by
  match l with
  | [] => rfl
  | [b] => rfl
  | b :: c :: rest =>
    rw [noTriple] at h
    split at h
    · exact absurd h (by simp)
    · exact h

theorem noTriple_cons_of_ne {a : Char} {l : List Char} (ha : a ≠ '\n')
    (h : noTriple l = true) : noTriple (a :: l) = true := by
  match l with
  | [] => rfl
  | [b] => rfl
  | b :: c :: rest =>
    rw [noTriple, if_neg (by simp [ha])]
    exact h

theorem noTriple_nl_cons {l : List Char} (hh : l.head? ≠ some '\n')
    (h : noTriple l = true) : noTriple ('\n' :: l) = true := by
  match l with
  | [] => rfl
  | [b] => rfl
  | b :: c :: rest =>
    have hb : b ≠ '\n' := by simpa using hh
    rw [noTriple, if_neg (by simp [hb])]
    exact h

theorem noTriple_nl_nl_cons {l : List Char} (hh : l.head? ≠ some '\n')
    (h : noTriple l = true) : noTriple ('\n' :: '\n' :: l) = true := by
  match l with
  | [] => rfl
  | b :: rest =>
    have hb : b ≠ '\n' := by simpa using hh
    rw [noTriple, if_neg (by simp [hb])]
    exact noTriple_nl_cons hh h

theorem noTriple_append_left {l t : List Char}
    (h : noTriple (l ++ t) = true) : noTriple l = true := by
  match l with
  | [] => rfl
  | [a] => rfl
  | [a, b] => rfl
  | a :: b :: c :: rest =>
    rw [noTriple]
    rw [List.cons_append, List.cons_append, List.cons_append, noTriple] at h
    split at h
    · exact absurd h (by simp)
    · next hcond =>
      rw [if_neg hcond]
      exact noTriple_append_left (l := b :: c :: rest) (by simpa using h)

theorem noTriple_append_right {l t : List Char}
    (h : noTriple (l ++ t) = true) : noTriple t = true := by
  induction l with
  | nil => exact h
  | cons a l ih => exact ih (noTriple_tail (by simpa using h))

theorem head_dropWhile_false {p : Char → Bool} {l : List Char} {a : Char}
    (h : (l.dropWhile p).head? = some a) : p a = false := by
  induction l with
  | nil => simp [List.dropWhile] at h
  | cons c cs ih =>
    rw [List.dropWhile_cons] at h
    split at h
    · exact ih h
    · next hp =>
      simp at h
      rw [← h]
      exact Bool.not_eq_true _ ▸ (by simpa using hp)

theorem headNotNl_collapse3F {n : Nat} {l : List Char}
    (h : l.head? ≠ some '\n') : (collapse3F n l).head? ≠ some '\n' := by
  match n, l with
  | 0, _ => simp [collapse3F]
  | _ + 1, [] => simp [collapse3F]
  | n + 1, c :: cs =>
    have hc : c ≠ '\n' := by simpa using h
    rw [collapse3F, if_neg hc]
    simpa using hc

theorem noTriple_collapse3F : ∀ (n : Nat) (l : List Char),
    noTriple (collapse3F n l) = true := by
  intro n
  induction n with
  | zero => intro l; rfl
  | succ n ih =>
    intro l
    cases l with
    | nil => rfl
    | cons c cs =>
      by_cases hc : c = '\n'
      · rw [collapse3F, if_pos hc]
        have hdrop : (cs.dropWhile isNL).head? ≠ some '\n' := by
          intro hcontra
          have := head_dropWhile_false hcontra
          simp [isNL] at this
        have hhead : (collapse3F n (cs.dropWhile isNL)).head? ≠ some '\n' :=
          headNotNl_collapse3F hdrop
        have hrec := ih (cs.dropWhile isNL)
        by_cases h2 : 2 ≤ (cs.takeWhile isNL).length
        · rw [if_pos h2]
          exact noTriple_nl_nl_cons hhead hrec
        · rw [if_neg h2]
          match htw : cs.takeWhile isNL with
          | [] =>
            simpa using noTriple_nl_cons hhead hrec
          | [b] =>
            have hb : b = '\n' := by
              have : b ∈ cs.takeWhile isNL := by rw [htw]; simp
              have := List.mem_takeWhile_imp this
              simpa [isNL] using this
            rw [hb]
            simpa using noTriple_nl_nl_cons hhead hrec
          | b :: d :: rest =>
            rw [htw] at h2
            simp at h2
      · rw [collapse3F, if_neg hc]
        exact noTriple_cons_of_ne hc (ih cs)

theorem noTriple_pyStrip {l : List Char} (h : noTriple l = true) :
    noTriple (pyStrip l) = true := by
  have h1 : noTriple (l.dropWhile isPySpace) = true := by
    have := List.takeWhile_append_dropWhile isPySpace l
    exact noTriple_append_right (l := l.takeWhile isPySpace) (by rw [this]; exact h)
  set x := l.dropWhile isPySpace with hx
  have hsplit : x = pyStrip l ++ (x.reverse.takeWhile isPySpace).reverse := by
    unfold pyStrip
    rw [← hx]
    calc x = x.reverse.reverse := (List.reverse_reverse x).symm
    _ = (x.reverse.takeWhile isPySpace ++ x.reverse.dropWhile isPySpace).reverse := by
        rw [List.takeWhile_append_dropWhile]
    _ = (x.reverse.dropWhile isPySpace).reverse ++ (x.reverse.takeWhile isPySpace).reverse := by
        rw [List.reverse_append]
  exact noTriple_append_left (by rw [← hsplit]; exact h1)

theorem sub12F_nil (n : Nat) : sub12F n [] = [] := by
  cases n <;> rfl

theorem matchNum_eq {l ds rest : List Char} {w : Char}
    (h : matchNum l = some (ds, w, rest)) :
    l = ds ++ '.' :: w :: rest ∧ ds ≠ [] ∧ isPySpace w = true ∧
      ∀ c ∈ ds, isDigitC c = true := by
  unfold matchNum at h
  split at h
  · next d ds' w' rest' heq1 heq2 =>
    split at h
    · next hws =>
      simp only [Option.some.injEq, Prod.mk.injEq] at h
      obtain ⟨hds, hw, hr⟩ := h
      subst hds; subst hw; subst hr
      refine ⟨?_, by simp, hws, ?_⟩
      · calc l = l.takeWhile isDigitC ++ l.dropWhile isDigitC :=
            (List.takeWhile_append_dropWhile isDigitC l).symm
        _ = (d :: ds') ++ '.' :: w' :: rest' := by rw [heq1, heq2]
      · intro c hc
        rw [← heq1] at hc
        exact List.mem_takeWhile_imp hc
    · exact absurd h (by simp)
  · exact absurd h (by simp)

theorem noTriple_digits_append {ds t : List Char}
    (hds : ∀ c ∈ ds, isDigitC c = true) (h : noTriple t = true) :
    noTriple (ds ++ t) = true := by
  induction ds with
  | nil => exact h
  | cons d ds ih =>
    have hd : d ≠ '\n' := by
      intro he
      have := hds d (by simp)
      rw [he] at this
      simp [isDigitC, Char.isDigit] at this
    exact noTriple_cons_of_ne hd (ih fun c hc => hds c (by simp [hc]))

theorem headNotNl_sub12F : ∀ {n : Nat} {l : List Char}, l.head? ≠ some '\n' →
    (sub12F n l).head? ≠ some '\n' := by
  intro n l h
  match n, l with
  | 0, l => exact h
  | n + 1, [] => simp [sub12F]
  | n + 1, c :: cs =>
    cases hm : matchNum (c :: cs) with
    | none =>
      have e : sub12F (n + 1) (c :: cs) = c :: sub12F n cs := by
        rw [sub12F.eq_3, hm]
      rw [e]
      simpa using h
    | some val =>
      obtain ⟨ds, w, rest⟩ := val
      cases rest with
      | nil =>
        have e : sub12F (n + 1) (c :: cs) = c :: sub12F n cs := by
          rw [sub12F.eq_3, hm]
        rw [e]
        simpa using h
      | cons u rest2 =>
        by_cases hu : isUpperC u = true
        · have e : sub12F (n + 1) (c :: cs)
              = ds ++ '.' :: w :: '\n' :: u :: sub12F n rest2 := by
            rw [sub12F.eq_3, hm]
            exact if_pos hu
          rw [e]
          obtain ⟨heq, hne, hws, hdig⟩ := matchNum_eq hm
          cases ds with
          | nil => exact absurd rfl hne
          | cons d ds' =>
            have hd : d ≠ '\n' := by
              intro he
              have := hdig d (by simp)
              rw [he] at this
              simp [isDigitC, Char.isDigit] at this
            simpa using hd
        · have e : sub12F (n + 1) (c :: cs) = c :: sub12F n cs := by
            rw [sub12F.eq_3, hm]
            exact if_neg hu
          rw [e]
          simpa using h

theorem noTriple_cons_sub12F (n : Nat)
    (ih : ∀ m, m < n + 1 → ∀ l, noTriple l = true → noTriple (sub12F m l) = true)
    {c : Char} {cs : List Char} (h : noTriple (c :: cs) = true) :
    noTriple (c :: sub12F n cs) = true := by
  by_cases hc : c = '\n'
  · subst hc
    cases cs with
    | nil => rw [sub12F_nil]; rfl
    | cons d cs' =>
      by_cases hd : d = '\n'
      · subst hd
        match n with
        | 0 => exact h
        | m + 1 =>
          have e : sub12F (m + 1) ('\n' :: cs') = '\n' :: sub12F m cs' := by
            rw [sub12F.eq_3, matchNum_none cs' (by decide)]
          rw [e]
          have hcs' : noTriple cs' = true := noTriple_tail (noTriple_tail h)
          have hhead : cs'.head? ≠ some '\n' := by
            intro hcontra
            cases cs' with
            | nil => simp at hcontra
            | cons x rest =>
              simp at hcontra
              rw [hcontra] at h
              rw [noTriple, if_pos (by simp)] at h
              exact Bool.false_ne_true h
          have hrec : noTriple (sub12F m cs') = true :=
            ih m (by omega) cs' hcs'
          exact noTriple_nl_nl_cons (headNotNl_sub12F (n := m) hhead) hrec
      · have hhead : (sub12F n (d :: cs')).head? ≠ some '\n' :=
          headNotNl_sub12F (by simpa using hd)
        exact noTriple_nl_cons hhead (ih n (Nat.lt_succ_self n) _ (noTriple_tail h))
  · exact noTriple_cons_of_ne hc (ih n (Nat.lt_succ_self n) cs (noTriple_tail h))

theorem noTriple_sub12F : ∀ (n : Nat) (l : List Char), noTriple l = true →
    noTriple (sub12F n l) = true := by
  intro n
  induction n using Nat.strong_induction_on with
  | _ n ih =>
    intro l h
    match n, l with
    | 0, l => exact h
    | n + 1, [] => rfl
    | n + 1, c :: cs =>
      cases hm : matchNum (c :: cs) with
      | some val =>
        obtain ⟨ds, w, rest⟩ := val
        cases rest with
        | nil =>
          have e : sub12F (n + 1) (c :: cs) = c :: sub12F n cs := by
            rw [sub12F.eq_3, hm]
          rw [e]
          exact noTriple_cons_sub12F n ih h
        | cons u rest2 =>
          by_cases hu : isUpperC u = true
          · have e : sub12F (n + 1) (c :: cs)
                = ds ++ '.' :: w :: '\n' :: u :: sub12F n rest2 := by
              rw [sub12F.eq_3, hm]
              exact if_pos hu
            rw [e]
            obtain ⟨heq, hne, hws, hdig⟩ := matchNum_eq hm
            have hrest2 : noTriple rest2 = true := by
              rw [heq] at h
              have h2 := noTriple_append_right (l := ds) h
              exact noTriple_tail (noTriple_tail (noTriple_tail h2))
            have hrec : noTriple (sub12F n rest2) = true :=
              ih n (Nat.lt_succ_self n) rest2 hrest2
            have hu_ne : u ≠ '\n' := by
              intro he
              rw [he] at hu
              simp [isUpperC, Char.isUpper] at hu
            have t1 : noTriple (u :: sub12F n rest2) = true :=
              noTriple_cons_of_ne hu_ne hrec
            have t2 : noTriple ('\n' :: u :: sub12F n rest2) = true :=
              noTriple_nl_cons (by simp [hu_ne]) t1
            have t3 : noTriple (w :: '\n' :: u :: sub12F n rest2) = true := by
              by_cases hw : w = '\n'
              · rw [hw]
                exact noTriple_nl_nl_cons (by simp [hu_ne]) t1
              · exact noTriple_cons_of_ne hw t2
            have t4 : noTriple ('.' :: w :: '\n' :: u :: sub12F n rest2) = true :=
              noTriple_cons_of_ne (by decide) t3
            exact noTriple_digits_append hdig t4
          · have e : sub12F (n + 1) (c :: cs) = c :: sub12F n cs := by
              rw [sub12F.eq_3, hm]
              exact if_neg hu
            rw [e]
            exact noTriple_cons_sub12F n ih h
      | none =>
        have e : sub12F (n + 1) (c :: cs) = c :: sub12F n cs := by
          rw [sub12F.eq_3, hm]
        rw [e]
        exact noTriple_cons_sub12F n ih h

theorem matchDash_none_head {c : Char} (cs : List Char)
    (h : isPySpace c = false) : matchDash (c :: cs) = none := by
  simp [matchDash, List.takeWhile_cons, h]

theorem matchLit_none_of_short : ∀ (pat l : List Char),
    l.length < pat.length → matchLit pat l = none := by
  intro pat
  induction pat with
  | nil => intro l h; simp at h
  | cons p ps ih =>
    intro l h
    cases l with
    | nil => rfl
    | cons c cs =>
      unfold matchLit
      split
      · exact ih cs (by simpa using h)
      · rfl

theorem hasSub_false_of_long : ∀ (pat l : List Char),
    l.length < pat.length → hasSub pat l = false := by
  intro pat l
  induction l with
  | nil =>
    intro h
    simp [hasSub, matchLit_none_of_short pat [] h]
  | cons c cs ih =>
    intro h
    simp [hasSub, matchLit_none_of_short pat (c :: cs) h,
      ih (Nat.lt_of_le_of_lt (Nat.le_succ _) h)]

theorem stripBoldF_skip (n : Nat) (c : Char) (cs : List Char) (h : c ≠ '*') :
    stripBoldF (n + 1) (c :: cs) = c :: stripBoldF n cs :=
  stripBoldF.eq_4 n c cs (fun _ h1 _ => h h1)

theorem sub2F_skip (n : Nat) (c : Char) (cs : List Char) (h : isDigitC c = false) :
    sub2F (n + 1) (c :: cs) = c :: sub2F n cs := by
  rw [sub2F.eq_3, matchNum_none cs h]

theorem sub3F_skip (n : Nat) (c : Char) (cs : List Char) (h : isDigitC c = false) :
    sub3F (n + 1) (c :: cs) = c :: sub3F n cs := by
  rw [sub3F.eq_3, matchNum_none cs h]

theorem sub12F_skip (n : Nat) (c : Char) (cs : List Char) (h : isDigitC c = false) :
    sub12F (n + 1) (c :: cs) = c :: sub12F n cs := by
  rw [sub12F.eq_3, matchNum_none cs h]

theorem sub4F_skip (n : Nat) (c : Char) (cs : List Char) (h : isPySpace c = false) :
    sub4F (n + 1) (c :: cs) = c :: sub4F n cs := by
  rw [sub4F.eq_3, matchDash_none_head cs h]

theorem sub5_skip (c d : Char) (cs : List Char) (hd : d ≠ '-') :
    sub5 (c :: d :: cs) = c :: sub5 (d :: cs) :=
  sub5.eq_2 c (d :: cs) (by intro y r hh; injection hh with h1 _; exact hd h1)

theorem sub5_single (c : Char) : sub5 [c] = [c] := by
  rw [sub5.eq_2 c [] (by intro y r hh; simp at hh)]
  rfl

theorem sub6_skip_ne (c : Char) (cs : List Char) (h : c ≠ '-') :
    sub6 (c :: cs) = c :: sub6 cs :=
  sub6.eq_2 c cs (fun _ _ h1 _ => h h1)

theorem sub7_skip_ne (c : Char) (cs : List Char) (h : c ≠ '-') :
    sub7 (c :: cs) = c :: sub7 cs :=
  sub7.eq_2 c cs (fun _ _ h1 _ => h h1)

theorem sub9F_skip (n : Nat) (c : Char) (cs : List Char) (h : ¬c = ':') :
    sub9F (n + 1) (c :: cs) = c :: sub9F n cs := by
  rw [sub9F.eq_3, if_neg h]

theorem collapse3F_skip (n : Nat) (c : Char) (cs : List Char) (h : ¬c = '\n') :
    collapse3F (n + 1) (c :: cs) = c :: collapse3F n cs := by
  rw [collapse3F.eq_3, if_neg h]

theorem collapse3F_nl (n : Nat) (d : Char) (cs : List Char) (hd : isNL d = false) :
    collapse3F (n + 1) ('\n' :: d :: cs) = '\n' :: collapse3F n (d :: cs) := by
  rw [collapse3F.eq_3, if_pos rfl]
  simp [List.takeWhile_cons, List.dropWhile_cons, hd]

/-- C1 (corrected, amended theorem): for every input with no double-asterisk
markers, no digit characters, no dashes, and additionally none of the six
section-header phrases of rule 8, the formatter returns the input with
every run of three or more newlines collapsed to two and leading and
trailing whitespace stripped, otherwise unchanged. -/
theorem format_inert_without_markup_or_phrases (l : List Char)
    (hb : hasSub (toL "**") l = false)
    (hd : ∀ c ∈ l, isDigitC c = false)
    (hm : '-' ∉ l)
    (h1 : hasSub (toL "Overview of") l = false)
    (h2 : hasSub (toL "Feasibility and") l = false)
    (h3 : hasSub (toL "Benefits for") l = false)
    (h4 : hasSub (toL "Challenges and") l = false)
    (h5 : hasSub (toL "Regulatory") l = false)
    (h6 : hasSub (toL "Market Insights") l = false) :
    format_text_response l = pyStrip (collapse3 l) := by
  have e1 : stripBold l = l := stripBoldF_id _ _ hb
  have e2 : sub2 l = l := sub2F_id _ _ hd
  have e3 : sub3 l = l := sub3F_id _ _ hd
  have e4 : sub4 l = l := sub4F_id _ _ hm
  have e5 : sub5 l = l := sub5_id _ hm
  have e6 : sub6 l = l := sub6_id _ hm
  have e7 : sub7 l = l := sub7_id _ hm
  have e8 : sub8 l = l := sub8F_id _ _ h1 h2 h3 h4 h5 h6
  have e9 : sub9 l = l := sub9F_id _ _ hm
  have hd' : ∀ c ∈ pyStrip (collapse3 l), isDigitC c = false := by
    intro c hc
    rcases mem_collapse3F _ _ (mem_pyStrip hc) with he | hm2
    · rw [he]; decide
    · exact hd c hm2
  unfold format_text_response
  rw [e1, e2, e3, e4, e5, e6, e7, e8, e9]
  exact sub12F_id _ _ hd'

/-- C1 witness: the amended theorem evaluated on a concrete input. -/
theorem format_inert_without_markup_or_phrases_witness :
    format_text_response (toL "  hello\n\n\n\nworld  ")
      = pyStrip (collapse3 (toL "  hello\n\n\n\nworld  ")) :=
  format_inert_without_markup_or_phrases _ (by decide) (by decide) (by decide) (by decide) (by decide)
    (by decide) (by decide) (by decide) (by decide)


/-- C7 (corrected, amended theorem): the final formatter output never
contains three consecutive newline characters, for any input: rule 10
collapses every longer run and the later rules cannot rebuild one. -/
theorem format_no_triple_newline (l : List Char) : noTriple (format_text_response l) = true := by
  unfold format_text_response sub12 collapse3
  exact noTriple_sub12F _ _ (noTriple_pyStrip (noTriple_collapse3F _ _))


/-- C4 (corrected, amended theorem): a dash bullet prefixed by exactly one
space is first rewritten by rule 4 (whose pattern accepts any whitespace
run of length one or more) to newline, three spaces, dash; rule 5 then
rewrites the trailing space-dash-space of that replacement, so the final
output places newline, two spaces, newline, dash before the item rather
than a bare newline and dash. -/
theorem format_single_space_bullet_behavior (a b : Char)
    (ha1 : isPySpace a = false) (ha2 : isDigitC a = false)
    (ha3 : a ≠ '*') (ha4 : a ≠ '-') (ha5 : a ≠ ':')
    (hb1 : isPySpace b = false) (hb2 : isDigitC b = false)
    (hb3 : b ≠ '*') (hb4 : b ≠ ':') :
    format_text_response [a, ' ', '-', ' ', b]
      = [a, '\n', ' ', ' ', '\n', '-', ' ', b] := by
  have ha_nl : a ≠ '\n' := by
    intro he; rw [he] at ha1; exact absurd ha1 (by decide)
  have hb_nl : b ≠ '\n' := by
    intro he; rw [he] at hb1; exact absurd hb1 (by decide)
  have st1 : stripBold [a, ' ', '-', ' ', b] = [a, ' ', '-', ' ', b] := by
    show stripBoldF 5 [a, ' ', '-', ' ', b] = [a, ' ', '-', ' ', b]
    rw [stripBoldF_skip 4 a _ ha3, stripBoldF_skip 3 ' ' _ (by decide),
      stripBoldF_skip 2 '-' _ (by decide), stripBoldF_skip 1 ' ' _ (by decide),
      stripBoldF_skip 0 b _ hb3]
    rfl
  have st2 : sub2 [a, ' ', '-', ' ', b] = [a, ' ', '-', ' ', b] := by
    show sub2F 5 [a, ' ', '-', ' ', b] = [a, ' ', '-', ' ', b]
    rw [sub2F_skip 4 a _ ha2, sub2F_skip 3 ' ' _ (by decide),
      sub2F_skip 2 '-' _ (by decide), sub2F_skip 1 ' ' _ (by decide),
      sub2F_skip 0 b _ hb2]
    rfl
  have st3 : sub3 [a, ' ', '-', ' ', b] = [a, ' ', '-', ' ', b] := by
    show sub3F 5 [a, ' ', '-', ' ', b] = [a, ' ', '-', ' ', b]
    rw [sub3F_skip 4 a _ ha2, sub3F_skip 3 ' ' _ (by decide),
      sub3F_skip 2 '-' _ (by decide), sub3F_skip 1 ' ' _ (by decide),
      sub3F_skip 0 b _ hb2]
    rfl
  have m4 : matchDash [' ', '-', ' ', b] = some [b] := by
    simp [matchDash, List.takeWhile, List.dropWhile, isPySpace]
  have st4 : sub4 [a, ' ', '-', ' ', b] = [a, '\n', ' ', ' ', ' ', '-', ' ', b] := by
    have h41 : sub4F 4 [' ', '-', ' ', b]
        = '\n' :: ' ' :: ' ' :: ' ' :: '-' :: ' ' :: sub4F 3 [b] := by
      rw [sub4F.eq_3, m4]
    show sub4F 5 [a, ' ', '-', ' ', b] = [a, '\n', ' ', ' ', ' ', '-', ' ', b]
    rw [sub4F_skip 4 a _ ha1, h41, sub4F_skip 2 b _ hb1]
    rfl
  have h51 : sub5 (' ' :: '-' :: ' ' :: [b]) = '\n' :: '-' :: ' ' :: sub5 [b] := by
    rw [sub5.eq_1, if_pos (by decide : (isPySpace ' ' && isPySpace ' ') = true)]
  have st5 : sub5 [a, '\n', ' ', ' ', ' ', '-', ' ', b]
      = [a, '\n', ' ', ' ', '\n', '-', ' ', b] := by
    rw [sub5_skip a '\n' _ (by decide), sub5_skip '\n' ' ' _ (by decide),
      sub5_skip ' ' ' ' _ (by decide), sub5_skip ' ' ' ' _ (by decide),
      h51, sub5_single b]
  have st6 : sub6 [a, '\n', ' ', ' ', '\n', '-', ' ', b]
      = [a, '\n', ' ', ' ', '\n', '-', ' ', b] := by
    rw [sub6_skip_ne a _ ha4, sub6_skip_ne '\n' _ (by decide),
      sub6_skip_ne ' ' _ (by decide), sub6_skip_ne ' ' _ (by decide),
      sub6_skip_ne '\n' _ (by decide),
      sub6.eq_2 '-' [' ', b] (by intro w rest h1 h2; simp at h2),
      sub6_skip_ne ' ' _ (by decide),
      sub6.eq_2 b [] (by intro w rest h1 h2; simp at h2)]
    rfl
  have st7 : sub7 [a, '\n', ' ', ' ', '\n', '-', ' ', b]
      = [a, '\n', ' ', ' ', '\n', '-', ' ', b] := by
    rw [sub7_skip_ne a _ ha4, sub7_skip_ne '\n' _ (by decide),
      sub7_skip_ne ' ' _ (by decide), sub7_skip_ne ' ' _ (by decide),
      sub7_skip_ne '\n' _ (by decide),
      sub7.eq_2 '-' [' ', b] (by intro w rest h1 h2; simp at h2),
      sub7_skip_ne ' ' _ (by decide),
      sub7.eq_2 b [] (by intro w rest h1 h2; simp at h2)]
    rfl
  have hlen : [a, '\n', ' ', ' ', '\n', '-', ' ', b].length = 8 := rfl
  have st8 : sub8 [a, '\n', ' ', ' ', '\n', '-', ' ', b]
      = [a, '\n', ' ', ' ', '\n', '-', ' ', b] := by
    unfold sub8
    exact sub8F_id _ _
      (hasSub_false_of_long _ _ (by rw [hlen]; decide))
      (hasSub_false_of_long _ _ (by rw [hlen]; decide))
      (hasSub_false_of_long _ _ (by rw [hlen]; decide))
      (hasSub_false_of_long _ _ (by rw [hlen]; decide))
      (hasSub_false_of_long _ _ (by rw [hlen]; decide))
      (hasSub_false_of_long _ _ (by rw [hlen]; decide))
  have st9 : sub9 [a, '\n', ' ', ' ', '\n', '-', ' ', b]
      = [a, '\n', ' ', ' ', '\n', '-', ' ', b] := by
    show sub9F 8 [a, '\n', ' ', ' ', '\n', '-', ' ', b] = _
    rw [sub9F_skip 7 a _ ha5, sub9F_skip 6 '\n' _ (by decide),
      sub9F_skip 5 ' ' _ (by decide), sub9F_skip 4 ' ' _ (by decide),
      sub9F_skip 3 '\n' _ (by decide), sub9F_skip 2 '-' _ (by decide),
      sub9F_skip 1 ' ' _ (by decide), sub9F_skip 0 b _ hb4]
    rfl
  have st10 : collapse3 [a, '\n', ' ', ' ', '\n', '-', ' ', b]
      = [a, '\n', ' ', ' ', '\n', '-', ' ', b] := by
    show collapse3F 8 [a, '\n', ' ', ' ', '\n', '-', ' ', b] = _
    rw [collapse3F_skip 7 a _ ha_nl, collapse3F_nl 6 ' ' _ (by decide),
      collapse3F_skip 5 ' ' _ (by decide), collapse3F_skip 4 ' ' _ (by decide),
      collapse3F_nl 3 '-' _ (by decide), collapse3F_skip 2 '-' _ (by decide),
      collapse3F_skip 1 ' ' _ (by decide), collapse3F_skip 0 b _ hb_nl]
    rfl
  have st11 : pyStrip [a, '\n', ' ', ' ', '\n', '-', ' ', b]
      = [a, '\n', ' ', ' ', '\n', '-', ' ', b] := by
    simp [pyStrip, List.dropWhile_cons, ha1, hb1]
  have st12 : sub12 [a, '\n', ' ', ' ', '\n', '-', ' ', b]
      = [a, '\n', ' ', ' ', '\n', '-', ' ', b] := by
    show sub12F 8 [a, '\n', ' ', ' ', '\n', '-', ' ', b] = _
    rw [sub12F_skip 7 a _ ha2, sub12F_skip 6 '\n' _ (by decide),
      sub12F_skip 5 ' ' _ (by decide), sub12F_skip 4 ' ' _ (by decide),
      sub12F_skip 3 '\n' _ (by decide), sub12F_skip 2 '-' _ (by decide),
      sub12F_skip 1 ' ' _ (by decide), sub12F_skip 0 b _ hb2]
    rfl
  unfold format_text_response
  rw [st1, st2, st3, st4, st5, st6, st7, st8, st9, st10, st11, st12]

/-- C4 witness: the amended theorem applied at concrete flanking
characters. -/
theorem format_single_space_bullet_behavior_witness :
    format_text_response ['x', ' ', '-', ' ', 'y']
      = ['x', '\n', ' ', ' ', '\n', '-', ' ', 'y'] :=
  format_single_space_bullet_behavior 'x' 'y' (by decide) (by decide)
    (by decide) (by decide) (by decide) (by decide) (by decide)
    (by decide) (by decide)

/-- C4 counterexample: on the input with a single-space dash bullet
between two letters, the formatter does not produce the claimed plain
newline-dash normalization. -/
theorem format_single_space_bullet_not_plain_dash :
    format_text_response (toL "x - y") ≠ toL "x\n- y" := by
  decide

/-- C1 counterexample: the input contains no bold markers, no digits and
no dashes, and is already trimmed and collapsed, yet the formatter changes
it, because rule 8 inserts a newline before the phrase Overview of. -/
theorem format_section_phrase_alters_plain_input :
    hasSub (toL "**") (toL "x Overview of y") = false ∧
    (∀ c ∈ toL "x Overview of y", isDigitC c = false) ∧
    '-' ∉ toL "x Overview of y" ∧
    format_text_response (toL "x Overview of y")
      ≠ pyStrip (collapse3 (toL "x Overview of y")) := by
  decide

/-- C2: evaluating the formatter at the spec example shows the sub-bullet
loses its three-space indentation: rule 5 rewrites the trailing
space-dash-space of the replacement rule 4 just produced, so no line of
the output starts with three spaces and a dash. -/
theorem format_sub_bullet_indent_lost :
    format_text_response (toL "Text:\n   - item") = toL "Text:\n\n  \n- item" ∧
    hasSub (toL "   -") (format_text_response (toL "Text:\n   - item")) = false := by
  decide

/-- C3 (corrected, amended theorem): an upstream response with status code
exactly 200 whose body carries a text field is formatted and returned with
status 200. -/
theorem chat_200_formats_text_field (t : List Char) :
    handleUpstream ⟨200, .withText t⟩
      = ⟨.plain (format_text_response t), 200⟩ := rfl

/-- C3 counterexample: an upstream status of 201 is a 2xx status with a
text field, yet the handler takes the error branch, because the code
compares the status with 200 for equality. -/
theorem chat_2xx_201_not_formatted :
    (200 ≤ 201 ∧ 201 < 300) ∧
    handleUpstream ⟨201, .withText (toL "hi")⟩
      ≠ ⟨.plain (format_text_response (toL "hi")), 200⟩ ∧
    handleUpstream ⟨201, .withText (toL "hi")⟩
      = ⟨.errorJson (toL "External API error: 201"), 201⟩ := by
  decide

/-- C5: the formatter is a total function on strings: every input,
including the empty string, is mapped to a result string. -/
theorem format_total :
    (∀ s : String, ∃ t : String, formatString s = t) ∧ formatString "" = "" :=
  ⟨fun s => ⟨formatString s, rfl⟩, by decide⟩

/-- C6: the formatter is not idempotent: re-applying it to its own output
can change the result, witnessed by a colon directly followed by a dash. -/
theorem format_not_idempotent :
    ∃ s : List Char,
      format_text_response (format_text_response s) ≠ format_text_response s :=
  ⟨toL "a:- b", by decide⟩

/-- C7 counterexample: after rules 1 to 3 the numbered marker of this
input is preceded by four newlines: rule 2 fires on the marker followed by
an unpaired bold marker, and rule 3 fires on the same marker again. -/
theorem rules123_quadruple_newline :
    sub3 (sub2 (stripBold (toL "1. **a\nb**"))) = toL "\n\n\n\n1. **a\nb**" ∧
    hasSub (toL "\n\n\n1. ") (sub3 (sub2 (stripBold (toL "1. **a\nb**")))) = true := by
  decide

/-- C8: a parsed JSON body with no message key is answered with status 400
and the error payload naming the message field, and the handler performs
no outbound call. -/
theorem chat_missing_message_400 {α : Type} (kvs : List (List Char × α))
    (env : List Char) (h : lookupKey (toL "message") kvs = none) :
    chatEntry (.ok kvs) env
      = .respond ⟨.errorJson (toL "No message provided"), 400⟩ ∧
    hasSub (toL "message") (toL "No message provided") = true := by
  refine ⟨?_, by decide⟩
  cases kvs with
  | nil => rfl
  | cons kv rest => simp [chatEntry, h]

/-- C8 witness: the empty JSON object is rejected with status 400. -/
theorem chat_missing_message_400_witness :
    chatEntry (α := Nat) (.ok []) (toL "production")
        = .respond ⟨.errorJson (toL "No message provided"), 400⟩ ∧
      hasSub (toL "message") (toL "No message provided") = true :=
  chat_missing_message_400 [] (toL "production") rfl

/-- C9: in the production environment the /config response depends only on
whether the secrets are configured, never on their values: two production
configurations agreeing on configuredness produce identical responses. -/
theorem config_production_no_secret_leak (c1 c2 : Config)
    (h1 : c1.environment = toL "production")
    (h2 : c2.environment = toL "production")
    (hk : truthy c1.apiKey = truthy c2.apiKey)
    (ht : truthy c1.channelToken = truthy c2.channelToken) :
    get_config c1 = get_config c2 := by
  simp [get_config, h1, h2, hk, ht]

/-- C9 witness: two production configurations with different secret values
yield the same /config response. -/
theorem config_production_no_secret_leak_witness :
    get_config ⟨toL "production", some (toL "secret-key-1"), some (toL "channel-token-1")⟩
      = get_config ⟨toL "production", some (toL "different-key-2"), some (toL "tok-2")⟩ :=
  config_production_no_secret_leak _ _ (by decide) (by decide) (by decide) (by decide)

/-- C10: a /chat body that fails to parse as JSON raises inside the try
block and is answered by the blanket except branch with status 500 and the
internal-error payload, not by the 400 validation response. -/
theorem chat_unparseable_body_500 {α : Type} (d env : List Char) :
    chatEntry (α := α) (.failed d) env
      = .respond ⟨.errorJson (toL "Internal server error: " ++ d), 500⟩ ∧
    chatEntry (α := α) (.failed d) env
      ≠ .respond ⟨.errorJson (toL "No message provided"), 400⟩ := by
  refine ⟨rfl, ?_⟩
  simp [chatEntry]
